import Mathlib

/-!
Verification of the head-meta injector, JSON-LD graph builder and
sitemap/robots emitter of the DigestPaper publisher site
(`scripts` build step, "Head-meta injector + JSON-LD graph + sitemap fallback").

Strings are embedded as `List Char` and every string-manipulating helper of
the source (single-character global regex replacement, first-occurrence
substring search, case-insensitive literal search, the few fixed regular
expressions) is transcribed as a structurally recursive Lean function, so
that all definitions evaluate inside the kernel.
-/

set_option maxRecDepth 40000

namespace DigestPaper

/-- Strings of the JavaScript source, embedded as lists of characters. -/
abbrev Str := List Char

/-- ASCII lower-casing of one character (the source only ever lower-cases
ASCII locale segments and HTML tag names). -/
def asciiLower (c : Char) : Char :=
  if 'A' ≤ c ∧ c ≤ 'Z' then Char.ofNat (c.toNat + 32) else c

/-- ASCII upper-casing of one character. -/
def asciiUpper (c : Char) : Char :=
  if 'a' ≤ c ∧ c ≤ 'z' then Char.ofNat (c.toNat - 32) else c

/-- Model of `String.prototype.toLowerCase` on the ASCII inputs used here. -/
def lowerStr (s : Str) : Str := s.map asciiLower

/-- Model of `String.prototype.toUpperCase` on the ASCII inputs used here. -/
def upperStr (s : Str) : Str := s.map asciiUpper

/-- Case-insensitive equality of two characters, ASCII. -/
def eqCI (a b : Char) : Bool := asciiLower a = asciiLower b

/-- Does `s` start with the literal `pat` (case-sensitive)? -/
def startsWithLit (pat s : Str) : Bool :=
  List.isPrefixOf pat s

/-- Does `s` start with the literal `pat`, compared case-insensitively? -/
def startsWithCI : Str → Str → Bool
  | [], _ => true
  | _ :: _, [] => false
  | p :: ps, c :: cs => eqCI p c && startsWithCI ps cs

/-- Last character test: does `s` end with character `c`? -/
def endsWithChar (c : Char) (s : Str) : Bool :=
  s.getLast? = some c

/-- Model of `String.prototype.split` with a one-character separator:
`"".split(sep) = [""]`, separators at the edges produce empty fields. -/
def splitOnChar (sep : Char) : Str → List Str
  | [] => [[]]
  | c :: cs =>
    match splitOnChar sep cs with
    | [] => [[]]
    | s :: ss => if c = sep then [] :: s :: ss else (c :: s) :: ss

/-- Model of `String.prototype.replace(stringPattern, r)` for a
one-character pattern: only the FIRST occurrence is replaced. -/
def replaceFirstChar (pat rep : Char) : Str → Str
  | [] => []
  | c :: cs => if c = pat then rep :: cs else c :: replaceFirstChar pat rep cs

/-- Model of `String.prototype.replace(/c/g, r)` for a one-character global
regex: every occurrence of `c` is replaced by the string `r`. -/
def replaceAllChar (pat : Char) (rep : Str) : Str → Str
  | [] => []
  | c :: cs => (if c = pat then rep else [c]) ++ replaceAllChar pat rep cs

/-- Worker for `breakOn`: `acc` holds the scanned prefix in reverse, so
the scan is a tail-recursive left-to-right walk. -/
def breakOnAux (pat : Str) (acc : Str) : Str → Option (Str × Str)
  | [] => if pat.isEmpty then some (acc.reverse, []) else none
  | c :: cs =>
    if startsWithLit pat (c :: cs) then some (acc.reverse, (c :: cs).drop pat.length)
    else breakOnAux pat (c :: acc) cs

/-- First-occurrence split: `breakOn pat s = some (pre, suf)` iff `pat`
occurs in `s`, with `s = pre ++ pat ++ suf` at the first occurrence.
This models both `String.prototype.includes` and the way a non-global
regex built from a literal marker matches its first occurrence. -/
def breakOn (pat s : Str) : Option (Str × Str) := breakOnAux pat [] s

/-- Worker for `breakOnCI`, same accumulator scheme. -/
def breakOnCIAux (pat : Str) (acc : Str) : Str → Option (Str × Str)
  | [] => if pat.isEmpty then some (acc.reverse, []) else none
  | c :: cs =>
    if startsWithCI pat (c :: cs) then some (acc.reverse, (c :: cs).drop pat.length)
    else breakOnCIAux pat (c :: acc) cs

/-- Case-insensitive first-occurrence split, used for the `/.../i` regexes
over literal text such as `/<\/head>/i`. -/
def breakOnCI (pat s : Str) : Option (Str × Str) := breakOnCIAux pat [] s

/-- Model of `String.prototype.includes`. -/
def includes (pat s : Str) : Bool := (breakOn pat s).isSome

/-- Case-insensitive containment test (`/.../i.test(s)` on a literal). -/
def includesCI (pat s : Str) : Bool := (breakOnCI pat s).isSome

/-- Model of `||` on JavaScript strings: `undefined` and the empty string
are falsy and fall through to the default. -/
def jsOr (v : Option Str) (d : Str) : Str :=
  match v with
  | some s => if s = [] then d else s
  | none => d

/-- Transcription of `htmlEscape` (build script, lines 31-37): four
sequential global single-character replacements, `&` first so that the
entities introduced afterwards are not re-escaped. -/
def htmlEscape (s : Str) : Str :=
  replaceAllChar '"' (("&quot;").toList)
    (replaceAllChar '>' (("&gt;").toList)
      (replaceAllChar '<' (("&lt;").toList)
        (replaceAllChar '&' (("&amp;").toList) s)))

/-- Components of a parsed hierarchical URL.  `path` always starts with
`'/'` and contains no `'?'` or `'#'`; `query` and `fragment` are stored
without their leading `'?'` / `'#'`. -/
structure ModelURL where
  scheme : Str
  host : Str
  path : Str
  query : Option Str
  fragment : Option Str
  deriving DecidableEq, Repr

/-- Scheme characters allowed after the first one: ASCII letters, digits,
`+`, `-`, `.` (RFC 3986, as enforced by the URL constructor). -/
def isSchemeChar (c : Char) : Bool :=
  (('a' ≤ c && c ≤ 'z') || ('A' ≤ c && c ≤ 'Z') || ('0' ≤ c && c ≤ '9')
    || c = '+' || c = '-' || c = '.')

/-- Validity of a URL scheme: nonempty, starts with an ASCII letter, rest
scheme characters. -/
def validScheme (s : Str) : Bool :=
  match s with
  | [] => false
  | c :: cs =>
    (('a' ≤ c && c ≤ 'z') || ('A' ≤ c && c ≤ 'Z')) && cs.all isSchemeChar

/-- Split of the part following the authority into path, query and
fragment: the path runs to the first `'?'` or `'#'`, the query to the
first `'#'`. -/
def splitPQF (rest : Str) : Str × Option Str × Option Str :=
  let p := rest.takeWhile (fun c => !(c = '?' || c = '#'))
  match rest.drop p.length with
  | [] => (p, none, none)
  | c :: t =>
    if c = '?' then
      let q := t.takeWhile (fun c => !(c = '#'))
      match t.drop q.length with
      | [] => (p, some q, none)
      | _ :: f => (p, some q, some f)
    else (p, none, some t)

/-- Modelled from the spec ("parses it as a URL"): the WHATWG `new URL`
constructor, a platform builtin that is not part of this repository,
restricted to hierarchical `scheme://host...` URLs.  The model splits at
the first `"://"`, validates the scheme, takes the host up to the first
`'/'`, `'?'` or `'#'`, and keeps the components verbatim (no percent
encoding or host normalization; URLs with opaque paths such as `mailto:`
are treated as parse failures). -/
def parseURL (u : Str) : Option ModelURL :=
  match breakOn (("://").toList) u with
  | none => none
  | some (scheme, rest) =>
    if validScheme scheme then
      let host := rest.takeWhile (fun c => !(c = '/' || c = '?' || c = '#'))
      let pqf := splitPQF (rest.drop host.length)
      some { scheme := scheme, host := host,
             path := if pqf.1 = [] then ['/'] else pqf.1,
             query := pqf.2.1, fragment := pqf.2.2 }
    else none

/-- Serialization of a parsed URL back to text (model of `url.toString()`
on the component-preserving parse above). -/
def serializeURL (m : ModelURL) : Str :=
  m.scheme ++ ("://").toList ++ m.host ++ m.path
    ++ (match m.query with | some q => '?' :: q | none => [])
    ++ (match m.fragment with | some f => '#' :: f | none => [])

/-- Transcription of `ensureTrailingSlash` (lines 39-47): parse as a URL
and append `/` to the pathname when missing; on parse failure fall back to
appending `/` to the whole string when not already present. -/
def ensureTrailingSlash (u : Str) : Str :=
  match parseURL u with
  | some m =>
    serializeURL
      { m with path := if endsWithChar '/' m.path then m.path else m.path ++ ['/'] }
  | none => if endsWithChar '/' u then u else u ++ ['/']

/-- Site constants of the build script (lines 25-28). -/
def SITE_NAME : Str := ("DigestPaper Media").toList

/-- Base URL of the published site. -/
def SITE_BASE : Str := ("https://publisher.digestpaper.com/").toList

/-- Root-relative logo asset path. -/
def SITE_LOGO : Str := ("/assets/logo.png").toList

/-- Twitter handle constant. -/
def SITE_TWITTER : Str := ("@DigestPaper").toList

/-- Transcription of `absUrl` (lines 49-58) for the inputs it receives:
an already-absolute URL is returned unchanged, otherwise the value is
resolved against `SITE_BASE` (modelling `new URL(rel, SITE_BASE)` for the
root-relative asset paths the script uses: scheme and host are taken from
the base and the root-relative path replaces the base path). -/
def absUrl (relOrAbs : Str) : Str :=
  if relOrAbs = [] then []
  else
    match parseURL relOrAbs with
    | some _ => relOrAbs
    | none =>
      match parseURL SITE_BASE with
      | some b =>
        let (p, q, f) := splitPQF relOrAbs
        serializeURL { b with path := if p = [] then ['/'] else p, query := q, fragment := f }
      | none => relOrAbs

/-- Twitter override sub-object of a page descriptor. -/
structure TwitterMeta where
  card : Option Str := none
  site : Option Str := none
  creator : Option Str := none
  deriving DecidableEq, Repr

/-- Geo sub-object of a page descriptor. -/
structure GeoMeta where
  placename : Option Str := none
  position : Option Str := none
  region : Option Str := none
  deriving DecidableEq, Repr

/-- Keywords field: the source accepts an array of strings or one string. -/
inductive KeywordsVal where
  | arr (l : List Str)
  | str (s : Str)
  deriving DecidableEq, Repr

/-- Page descriptor as read from the page registry (`pages.json`).
Absent JSON fields are `none`; `path` and `canonical` are always present
in the registry (the script dereferences them unconditionally). -/
structure PageMeta where
  path : Str := []
  canonical : Str := []
  title : Option Str := none
  description : Option Str := none
  keywords : Option KeywordsVal := none
  robots : Option Str := none
  themeColor : Option Str := none
  referrer : Option Str := none
  ogImage : Option Str := none
  ogImageAlt : Option Str := none
  twitter : Option TwitterMeta := none
  geo : Option GeoMeta := none
  language : Option Str := none
  locale : Option Str := none
  lang : Option Str := none
  jsonldOnPage : Option Bool := none
  injectJsonLd : Option Bool := none
  inGraph : Option Bool := none
  priority : Option ℚ := none
  changefreq : Option Str := none
  deriving DecidableEq, Repr

/-- Result of locale normalization. -/
structure LangLoc where
  lang : Str
  locale : Str
  deriving DecidableEq, Repr

/-- Transcription of `normalizeLanguage` (lines 60-75): fallback chain
`language || locale || lang || "nl-NL"` (JavaScript `||`, empty string is
falsy), replacement of the FIRST `'_'` by `'-'`, split on `'-'`,
`(parts[0] || "nl").toLowerCase()` as `lang`, and the locale rule of the
source. -/
def normalizeLanguage (m : PageMeta) : LangLoc :=
  let raw := jsOr m.language (jsOr m.locale (jsOr m.lang (("nl-NL").toList)))
  let parts := splitOnChar '-' (replaceFirstChar '_' '-' raw)
  let first := parts.headD []
  let lang := lowerStr (if first = [] then ("nl").toList else first)
  let second := (parts.drop 1).headD []
  let locale :=
    if second ≠ [] then lang ++ '-' :: upperStr second
    else if lang = ("en").toList then ("en-US").toList
    else lang ++ '-' :: upperStr lang
  { lang := lang, locale := locale }

/-- Restatement of claim C3's words about locale normalization, used to
compare the claim's described algorithm with the source: same fallback
chain, but the raw value is split on `'-'` OR `'_'` (every occurrence of
either character separates), the first segment is lower-cased as `lang`,
and the locale rule is as described. -/
def normalizeLanguageClaimC3 (m : PageMeta) : LangLoc :=
  let raw := jsOr m.language (jsOr m.locale (jsOr m.lang (("nl-NL").toList)))
  let parts := (splitOnChar '-' raw).flatMap (splitOnChar '_')
  let lang := lowerStr (parts.headD [])
  let second := (parts.drop 1).headD []
  let locale :=
    if second ≠ [] then lang ++ '-' :: upperStr second
    else if lang = ("en").toList then ("en-US").toList
    else lang ++ '-' :: upperStr lang
  { lang := lang, locale := locale }

/-- Restatement of claim C3 as amended: the raw value has only its first
`'_'` replaced by `'-'` before splitting on `'-'`, and an empty first
segment falls back to `"nl"` before lower-casing. -/
def normalizeLanguageAmendedC3 (m : PageMeta) : LangLoc :=
  let raw := jsOr m.language (jsOr m.locale (jsOr m.lang (("nl-NL").toList)))
  let parts := splitOnChar '-' (replaceFirstChar '_' '-' raw)
  let first := parts.headD []
  let lang := lowerStr (if first = [] then ("nl").toList else first)
  let second := (parts.drop 1).headD []
  let locale :=
    if second ≠ [] then lang ++ '-' :: upperStr second
    else if lang = ("en").toList then ("en-US").toList
    else lang ++ '-' :: upperStr lang
  { lang := lang, locale := locale }

/-- Transcription of `toKeywords` (lines 77-80): arrays are joined with
`", "`, strings pass through, `undefined` becomes the empty string. -/
def toKeywords (v : Option KeywordsVal) : Str :=
  match v with
  | some (.arr l) => (l.intersperse ((", ").toList)).flatten
  | some (.str s) => s
  | none => []

/-- Helper for the viewport regex `/<meta[^>]+name=["']viewport["']/i`:
after `name=` there must be a quote character, the literal `viewport`
(case-insensitive), and another quote character (the two character classes
are independent, there is no backreference). -/
def nameViewportLit (s : Str) : Bool :=
  startsWithCI (("name=").toList) s &&
    (match s.drop 5 with
     | q :: rest =>
       (q = '"' || q = '\'') && startsWithCI (("viewport").toList) rest &&
         (match rest.drop 8 with
          | q2 :: _ => q2 = '"' || q2 = '\''
          | [] => false)
     | [] => false)

/-- Helper for `[^>]+` in the viewport regex: consume at least one
character different from `'>'`, then the `name=["']viewport["']` literal
may start at any later position while only non-`'>'` characters have been
consumed. -/
def viewportAfterMeta : Str → Bool
  | [] => false
  | c :: cs => if c = '>' then false else nameViewportLit cs || viewportAfterMeta cs

/-- Model of `/<meta[^>]+name=["']viewport["']/i.test(html)` (line 112):
a match may start at any position of the document. -/
def hasViewportMeta : Str → Bool
  | [] => false
  | c :: cs =>
    (startsWithCI (("<meta").toList) (c :: cs) && viewportAfterMeta ((c :: cs).drop 5))
      || hasViewportMeta cs

/-- Result of `buildHead`: the delimited head block plus the normalized
language pair. -/
structure HeadResult where
  block : Str
  lang : Str
  locale : Str
  deriving DecidableEq, Repr

/-- The viewport meta line interpolated when the target document does not
already declare one (line 113). -/
def viewportMetaTag : Str :=
  ("<meta name=\"viewport\" content=\"width=device-width, initial-scale=1\">").toList

/-- The tail of the head template after the `${viewportLine}`
interpolation point. -/
def headBlockEnd : Str := ("\n<!-- END HEAD POLICY -->").toList

/-- The head template (lines 115-156) up to the `${viewportLine}`
interpolation point: every interpolated field goes through `htmlEscape`,
the canonical is trailing-slash-normalized first, and the template
literal is transcribed line for line (the leading newline of the backtick
template is removed by the source's `.trim()`). -/
def headBlockPre (meta : PageMeta) : Str :=
  let ll := normalizeLanguage meta
  let title := htmlEscape (meta.title.getD [])
  let desc := htmlEscape (meta.description.getD [])
  let keywords := htmlEscape (toKeywords meta.keywords)
  let canonical := htmlEscape (ensureTrailingSlash meta.canonical)
  let robots := htmlEscape (jsOr meta.robots (("index, follow, max-image-preview:large, max-snippet:-1, max-video-preview:-1").toList))
  let themeColor := htmlEscape (jsOr meta.themeColor (("#0f172a").toList))
  let referrer := htmlEscape (jsOr meta.referrer (("strict-origin-when-cross-origin").toList))
  let ogImage := htmlEscape (jsOr meta.ogImage (("/assets/og-image.png").toList))
  let ogImageAlt := htmlEscape (jsOr meta.ogImageAlt (jsOr meta.title SITE_NAME))
  let twitterCard := htmlEscape (jsOr (meta.twitter.bind (·.card)) (("summary_large_image").toList))
  let twitterSite := htmlEscape (jsOr (meta.twitter.bind (·.site)) SITE_TWITTER)
  let twitterCreator := htmlEscape (jsOr (meta.twitter.bind (·.creator)) SITE_TWITTER)
  let geoPlacename := htmlEscape (jsOr (meta.geo.bind (·.placename)) [])
  let geoPosition := htmlEscape (jsOr (meta.geo.bind (·.position)) [])
  let geoRegion := htmlEscape (jsOr (meta.geo.bind (·.region)) [])
  let ogLocale := replaceFirstChar '-' '_' ll.locale
  ("<!-- BEGIN HEAD POLICY -->\n<title>").toList ++ title ++ ("</title>\n").toList
    ++ ("<meta name=\"description\" content=\"").toList ++ desc ++ ("\">\n").toList
    ++ ("<meta name=\"keywords\" content=\"").toList ++ keywords ++ ("\">\n").toList
    ++ ("<meta name=\"robots\" content=\"").toList ++ robots ++ ("\">\n").toList
    ++ ("<meta name=\"referrer\" content=\"").toList ++ referrer ++ ("\">\n").toList
    ++ ("<meta name=\"theme-color\" content=\"").toList ++ themeColor ++ ("\">\n").toList
    ++ ("<link rel=\"canonical\" href=\"").toList ++ canonical ++ ("\">\n").toList
    ++ ("<link rel=\"alternate\" hreflang=\"").toList ++ ll.lang ++ ("\" href=\"").toList ++ canonical ++ ("\">\n").toList
    ++ ("<meta name=\"content-language\" content=\"").toList ++ ll.locale ++ ("\">\n\n").toList
    ++ ("<!-- Geo/DC -->\n").toList
    ++ ("<meta name=\"geo.placename\" content=\"").toList ++ geoPlacename ++ ("\">\n").toList
    ++ ("<meta name=\"geo.position\" content=\"").toList ++ geoPosition ++ ("\">\n").toList
    ++ ("<meta name=\"geo.region\" content=\"").toList ++ geoRegion ++ ("\">\n").toList
    ++ ("<meta name=\"ICBM\" content=\"").toList ++ geoPosition ++ ("\">\n").toList
    ++ ("<meta name=\"DC.title\" content=\"").toList ++ title ++ ("\">\n").toList
    ++ ("<meta name=\"DC.description\" content=\"").toList ++ desc ++ ("\">\n").toList
    ++ ("<meta name=\"DC.language\" content=\"").toList ++ ll.locale ++ ("\">\n").toList
    ++ ("<meta name=\"DC.publisher\" content=\"").toList ++ SITE_NAME ++ ("\">\n\n").toList
    ++ ("<!-- Open Graph -->\n").toList
    ++ ("<meta property=\"og:type\" content=\"website\">\n").toList
    ++ ("<meta property=\"og:site_name\" content=\"").toList ++ SITE_NAME ++ ("\">\n").toList
    ++ ("<meta property=\"og:title\" content=\"").toList ++ title ++ ("\">\n").toList
    ++ ("<meta property=\"og:description\" content=\"").toList ++ desc ++ ("\">\n").toList
    ++ ("<meta property=\"og:locale\" content=\"").toList ++ ogLocale ++ ("\">\n").toList
    ++ ("<meta property=\"og:url\" content=\"").toList ++ canonical ++ ("\">\n").toList
    ++ ("<meta property=\"og:image\" content=\"").toList ++ ogImage ++ ("\">\n").toList
    ++ ("<meta property=\"og:image:secure_url\" content=\"").toList ++ ogImage ++ ("\">\n").toList
    ++ ("<meta property=\"og:image:alt\" content=\"").toList ++ ogImageAlt ++ ("\">\n\n").toList
    ++ ("<!-- Twitter -->\n").toList
    ++ ("<meta name=\"twitter:card\" content=\"").toList ++ twitterCard ++ ("\">\n").toList
    ++ ("<meta name=\"twitter:site\" content=\"").toList ++ twitterSite ++ ("\">\n").toList
    ++ ("<meta name=\"twitter:creator\" content=\"").toList ++ twitterCreator ++ ("\">\n").toList
    ++ ("<meta name=\"twitter:title\" content=\"").toList ++ title ++ ("\">\n").toList
    ++ ("<meta name=\"twitter:description\" content=\"").toList ++ desc ++ ("\">\n").toList
    ++ ("<meta name=\"twitter:image\" content=\"").toList ++ ogImage ++ ("\">\n").toList
    ++ ("<meta name=\"twitter:image:alt\" content=\"").toList ++ ogImageAlt ++ ("\">").toList

/-- Transcription of `buildHead` (lines 96-160): the fixed template
prefix, then the conditional `${viewportLine}` (preceded by the newline
that closes the twitter:image:alt line in the template), then the END
marker line, together with the normalized language pair. -/
def buildHead (meta : PageMeta) (html : Str) : HeadResult :=
  let ll := normalizeLanguage meta
  { block :=
      headBlockPre meta ++ ('\n' :: (if hasViewportMeta html then [] else viewportMetaTag))
        ++ headBlockEnd,
    lang := ll.lang, locale := ll.locale }

/-- JSON string escaping as performed by `JSON.stringify` on the
characters that can occur in the page registry (quote, backslash and the
common control characters; other control characters do not occur in the
data this script serializes). -/
def jsStringEscape : Str → Str
  | [] => []
  | c :: cs =>
    (if c = '"' then ['\\', '"']
     else if c = '\\' then ['\\', '\\']
     else if c = '\n' then ['\\', 'n']
     else if c = '\r' then ['\\', 'r']
     else if c = '\t' then ['\\', 't']
     else [c]) ++ jsStringEscape cs

/-- Indentation helper for the two-space pretty printing of
`JSON.stringify(graph, null, 2)`. -/
def spacesN (n : Nat) : Str := List.replicate n ' '

/-- One serialized JSON string literal. -/
def jQuote (s : Str) : Str := '"' :: (jsStringEscape s ++ ['"'])

/-- One `"key": "value"` line at the given indentation. -/
def jField (ind : Nat) (k v : Str) : Str :=
  spacesN ind ++ jQuote k ++ (": ").toList ++ jQuote v

/-- Join of serialized field lines with `",\n"`. -/
def jJoin (lines : List Str) : Str :=
  (lines.intersperse ((",\n").toList)).flatten

/-- Serialized object: opening brace, field lines, closing brace at the
object's own indentation (the caller supplies the prefix of the opening
brace, as `JSON.stringify` does). -/
def jObjWrap (ind : Nat) (inner : Str) : Str :=
  ('\x7b' :: '\n' :: inner) ++ ('\n' :: (spacesN ind ++ ['\x7d']))

/-- Nodes of the JSON-LD `@graph` array, mirroring the object literals of
`buildGraph` (lines 163-208) with their key insertion order. -/
inductive GraphNode where
  | org (id name url logo : Str)
  | website (id url name publisherId inLanguage target queryInput : Str)
  | webpage (id url : Str) (name description : Option Str)
      (isPartOfId inLanguage : Str)
  deriving DecidableEq, Repr

/-- Fixed id of the Organization node. -/
def orgIdStr : Str := SITE_BASE ++ ("#org").toList

/-- Fixed id of the WebSite node. -/
def siteIdStr : Str := SITE_BASE ++ ("#website").toList

/-- The constant Organization node of `buildGraph`. -/
def orgNode : GraphNode := .org orgIdStr SITE_NAME SITE_BASE (absUrl SITE_LOGO)

/-- The constant WebSite node of `buildGraph` (publisher reference,
`inLanguage` and the fixed SearchAction). -/
def websiteNode : GraphNode :=
  .website siteIdStr SITE_BASE (SITE_NAME ++ (" Publisher").toList) orgIdStr
    (("nl-NL").toList) (SITE_BASE ++ ("search?q=\x7bquery\x7d").toList)
    (("required name=query").toList)

/-- The WebPage node built from one descriptor: trailing-slash-normalized
canonical plus `#webpage` as id, raw (JSON-escaped later, not
HTML-escaped) title and description, `isPartOf` pointing at the WebSite,
`inLanguage` from this page's normalized locale. -/
def webpageNode (p : PageMeta) : GraphNode :=
  .webpage (ensureTrailingSlash p.canonical ++ ("#webpage").toList)
    (ensureTrailingSlash p.canonical) p.title p.description siteIdStr
    (normalizeLanguage p).locale

/-- The `pages.filter(p => p.inGraph !== false)` of `buildGraph`
(line 190): a page keeps its WebPage node unless `inGraph` is literally
`false`. -/
def inGraphPages (pages : List PageMeta) : List PageMeta :=
  pages.filter (fun p => !(p.inGraph == some false))

/-- Transcription of the `@graph` array of `buildGraph`: Organization,
WebSite, then one WebPage node per descriptor with `inGraph !== false`,
in registry iteration order. -/
def buildGraphNodes (pages : List PageMeta) : List GraphNode :=
  orgNode :: websiteNode :: (inGraphPages pages).map webpageNode

/-- Optional `"key": "value"` field line: `JSON.stringify` drops object
fields whose value is `undefined`. -/
def jFieldOpt (ind : Nat) (k : Str) (v : Option Str) : List Str :=
  match v with
  | some s => [jField ind k s]
  | none => []

/-- Serialization of one graph node as `JSON.stringify(·, null, 2)` lays
it out at element indentation `ind` (fields at `ind + 2`, nested objects
one level deeper). -/
def graphNodeToStr (ind : Nat) : GraphNode → Str
  | .org id name url logo =>
    jObjWrap ind (jJoin
      [jField (ind+2) (("@type").toList) (("Organization").toList),
       jField (ind+2) (("@id").toList) id,
       jField (ind+2) (("name").toList) name,
       jField (ind+2) (("url").toList) url,
       jField (ind+2) (("logo").toList) logo])
  | .website id url name publisherId inLanguage target queryInput =>
    jObjWrap ind (jJoin
      [jField (ind+2) (("@type").toList) (("WebSite").toList),
       jField (ind+2) (("@id").toList) id,
       jField (ind+2) (("url").toList) url,
       jField (ind+2) (("name").toList) name,
       spacesN (ind+2) ++ jQuote (("publisher").toList) ++ (": ").toList
         ++ jObjWrap (ind+2) (jField (ind+4) (("@id").toList) publisherId),
       jField (ind+2) (("inLanguage").toList) inLanguage,
       spacesN (ind+2) ++ jQuote (("potentialAction").toList) ++ (": ").toList
         ++ jObjWrap (ind+2) (jJoin
              [jField (ind+4) (("@type").toList) (("SearchAction").toList),
               jField (ind+4) (("target").toList) target,
               jField (ind+4) (("query-input").toList) queryInput])])
  | .webpage id url name description isPartOfId inLanguage =>
    jObjWrap ind (jJoin
      ([jField (ind+2) (("@type").toList) (("WebPage").toList),
        jField (ind+2) (("@id").toList) id,
        jField (ind+2) (("url").toList) url]
       ++ jFieldOpt (ind+2) (("name").toList) name
       ++ jFieldOpt (ind+2) (("description").toList) description
       ++ [spacesN (ind+2) ++ jQuote (("isPartOf").toList) ++ (": ").toList
             ++ jObjWrap (ind+2) (jField (ind+4) (("@id").toList) isPartOfId),
           jField (ind+2) (("inLanguage").toList) inLanguage]))

/-- Serialization of `JSON.stringify(buildGraph(pages), null, 2)`: the
top-level object with its `@context` and `@graph` keys, array elements at
indentation 4. -/
def buildGraphStr (pages : List PageMeta) : Str :=
  let nodes := buildGraphNodes pages
  let arr :=
    ('[' :: '\n' ::
      jJoin (nodes.map (fun n => spacesN 4 ++ graphNodeToStr 4 n)))
      ++ ('\n' :: (spacesN 2 ++ [']']))
  ('\x7b' :: '\n' :: (jField 2 (("@context").toList) (("https://schema.org").toList)))
    ++ ((",\n").toList)
    ++ (spacesN 2 ++ jQuote (("@graph").toList) ++ (": ").toList ++ arr)
    ++ ('\n' :: ['\x7d'])

/-- Literal begin marker of the head policy block. -/
def BEGIN_HEAD : Str := ("<!-- BEGIN HEAD POLICY -->").toList

/-- Literal end marker of the head policy block. -/
def END_HEAD : Str := ("<!-- END HEAD POLICY -->").toList

/-- Literal begin marker of the JSON-LD block. -/
def BEGIN_JLD : Str := ("<!-- BEGIN JSON-LD PUBLISHER -->").toList

/-- Literal end marker of the JSON-LD block. -/
def END_JLD : Str := ("<!-- END JSON-LD PUBLISHER -->").toList

/-- Model of `html.replace(new RegExp(begin + "([\s\S]*?)" + end), repl)`:
the first occurrence of the begin marker, the lazily-matched middle up to
the first end marker after it, and both markers are replaced by `repl`;
when the regex does not match (no end marker after the begin marker) the
document is returned unchanged. -/
def replaceBetween (html b e repl : Str) : Str :=
  match breakOn b html with
  | none => html
  | some (pre, afterB) =>
    match breakOn e afterB with
    | none => html
    | some (_, suf) => pre ++ repl ++ suf

/-- Model of `html.replace(/<head([^>]*)>/i, "<head$1>\n" + repl)`: at the
first case-insensitive `<head`, the attribute run `[^>]*` extends to the
first `'>'`; the replacement re-emits a lower-case `<head`, the captured
attributes, `'>'`, a newline and the block.  When no `'>'` follows, no
later `<head` can match either, and the document is unchanged. -/
def replaceHeadOpen (html repl : Str) : Str :=
  match breakOnCI (("<head").toList) html with
  | none => html
  | some (pre, rest) =>
    let attrs := rest.takeWhile (fun c => !(c = '>'))
    match rest.drop attrs.length with
    | [] => html
    | _ :: afterGt =>
      pre ++ ("<head").toList ++ attrs ++ ('>' :: '\n' :: repl) ++ afterGt

/-- Transcription of `injectBetweenMarkers` (lines 210-216). -/
def injectBetweenMarkers (html beginM endM repl : Str) : Str :=
  if includes beginM html then replaceBetween html beginM endM repl
  else replaceHeadOpen html repl

/-- JavaScript `\w` word character (for the `\b` boundary in the lang
attribute regexes). -/
def isWordChar (c : Char) : Bool :=
  ('a' ≤ c && c ≤ 'z') || ('A' ≤ c && c ≤ 'Z') || ('0' ≤ c && c ≤ '9') || c = '_'

/-- Scan inside an `<html ...>` tag (characters matched by `[^>]*`) for a
word-boundary `lang=`; `prev` is the character before the current
position, initially the final `'l'` of `<html`. -/
def langAfterHtml (prev : Char) : Str → Bool
  | [] => false
  | c :: cs =>
    if c = '>' then false
    else ((!isWordChar prev) && startsWithCI (("lang=").toList) (c :: cs))
      || langAfterHtml c cs

/-- Model of `/<html[^>]*\blang=/i.test(html)`: some occurrence of
`<html` is followed, within its non-`'>'` run, by a boundary `lang=`. -/
def htmlHasLangAttr : Str → Bool
  | [] => false
  | c :: cs =>
    (startsWithCI (("<html").toList) (c :: cs) && langAfterHtml 'l' ((c :: cs).drop 5))
      || htmlHasLangAttr cs

/-- Locate the first word-boundary `lang=` inside the tag: returns the
attribute characters before it and the characters after the literal
`lang=`.  `acc` accumulates the consumed characters in reverse. -/
def findLangEq (prev : Char) (acc : Str) : Str → Option (Str × Str)
  | [] => none
  | c :: cs =>
    if c = '>' then none
    else if (!isWordChar prev) && startsWithCI (("lang=").toList) (c :: cs) then
      some (acc.reverse, (c :: cs).drop 5)
    else findLangEq c (c :: acc) cs

/-- Model of
`html.replace(/<html([^>]*)\blang=(['"]).*?\2([^>]*)>/i, "<html$1lang=\"" + lang + "\"$3>")`
for documents with a single `lang` attribute in the `<html>` tag (the
regex engine's backtracking across several candidate `lang=` positions in
one tag is not needed for such documents): the quoted old value (which
`.*?` cannot extend across a newline) is replaced, the quote style is
normalized to `"` by the replacement template and the remaining
attributes are preserved. -/
def replaceLangAttr (html lang : Str) : Str :=
  match breakOnCI (("<html").toList) html with
  | none => html
  | some (pre, rest) =>
    match findLangEq 'l' [] rest with
    | none => html
    | some (attrs1, afterLangEq) =>
      match afterLangEq with
      | q :: vrest =>
        if q = '"' || q = '\'' then
          match breakOn [q] vrest with
          | none => html
          | some (val, afterQ) =>
            if val.any (fun c => c = '\n') then html
            else
              let attrs2 := afterQ.takeWhile (fun c => !(c = '>'))
              match afterQ.drop attrs2.length with
              | [] => html
              | _ :: afterGt =>
                pre ++ ("<html").toList ++ attrs1 ++ ("lang=\"").toList ++ lang
                  ++ ('"' :: attrs2) ++ ('>' :: afterGt)
        else html
      | [] => html

/-- Transcription of `ensureHtmlLang` (lines 218-224): empty language
leaves the document alone; an existing `lang` attribute is overwritten;
otherwise a `lang` attribute is appended to the opening `<html ...>`
tag. -/
def ensureHtmlLang (html lang : Str) : Str :=
  if lang = [] then html
  else if htmlHasLangAttr html then replaceLangAttr html lang
  else
    match breakOnCI (("<html").toList) html with
    | none => html
    | some (pre, rest) =>
      let attrs := rest.takeWhile (fun c => !(c = '>'))
      match rest.drop attrs.length with
      | [] => html
      | _ :: afterGt =>
        pre ++ ("<html").toList ++ attrs ++ (" lang=\"").toList ++ lang
          ++ ('"' :: '>' :: afterGt)

/-- The serialized JSON-LD block with its markers, as assembled in
`processPage` (lines 256-261, after `.trim()`). -/
def jsonLdBlock (pages : List PageMeta) : Str :=
  BEGIN_JLD ++ ("\n<script type=\"application/ld+json\">\n").toList
    ++ buildGraphStr pages ++ ("\n</script>\n").toList ++ END_JLD

/-- Transcription of the JSON-LD placement logic of `processPage`
(lines 263-272): replace between markers when the begin marker is present,
else insert immediately before the first (case-insensitive) `</head>`,
else append at the end of the document. -/
def injectJsonLdBlock (pages : List PageMeta) (html : Str) : Str :=
  if includes BEGIN_JLD html then
    replaceBetween html BEGIN_JLD END_JLD (jsonLdBlock pages)
  else if includesCI (("</head>").toList) html then
    match breakOnCI (("</head>").toList) html with
    | some (pre, suf) => pre ++ jsonLdBlock pages ++ ("\n</head>").toList ++ suf
    | none => html
  else html ++ ('\n' :: jsonLdBlock pages) ++ ['\n']

/-- The JSON-LD opt-in condition of `processPage` (line 253):
`jsonldOnPage === true || injectJsonLd === true || path === "/index.html"`. -/
def wantsJsonLd (meta : PageMeta) : Bool :=
  meta.jsonldOnPage == some true || meta.injectJsonLd == some true
    || meta.path == ("/index.html").toList

/-- The head-policy part of `processPage` (lines 240-250): set the html
lang attribute (`lang || "nl"`), then inject the head block between the
HEAD POLICY markers or after `<head>`. -/
def headStage (meta : PageMeta) (html : Str) : Str :=
  let hr := buildHead meta html
  let html1 := ensureHtmlLang html (jsOr (some hr.lang) (("nl").toList))
  injectBetweenMarkers html1 BEGIN_HEAD END_HEAD hr.block

/-- The pure per-page document transformation of `processPage`
(lines 240-273): the head stage, then the conditional JSON-LD
injection. -/
def processHtml (pages : List PageMeta) (meta : PageMeta) (html : Str) : Str :=
  if wantsJsonLd meta then injectJsonLdBlock pages (headStage meta html)
  else headStage meta html

/-- Transcription of `relFromPublic` (lines 90-93): one leading `'/'` is
stripped so that joining cannot discard the public base path. -/
def relFromPublic (p : Str) : Str :=
  match p with
  | '/' :: rest => rest
  | _ => p

/-- Path segments of a relative path string: split on `'/'`, dropping
empty segments and `"."` segments (as `path.normalize` does). -/
def segsOf (s : Str) : List Str :=
  (splitOnChar '/' s).filter (fun seg => !(seg = [] || seg = (".").toList))

/-- Model of Node's `path.join(base, rel)` for an absolute `base`, on
segment lists: the relative segments are appended and `".."` pops one
segment (never above the filesystem root). -/
def normJoin (base : List Str) (rel : Str) : List Str :=
  (segsOf rel).foldl
    (fun acc seg => if seg = ("..").toList then acc.dropLast else acc ++ [seg])
    base

/-- The file a descriptor resolves to:
`path.join(PUBLIC_DIR, relFromPublic(meta.path))` (lines 228-229 and
282-283), with the public directory given as its absolute segment list. -/
def resolvePath (publicSegs : List Str) (metaPath : Str) : List Str :=
  normJoin publicSegs (relFromPublic metaPath)

/-- Contents and modification time of one file. -/
structure FileData where
  content : Str
  mtime : Str
  deriving DecidableEq, Repr

/-- Filesystem model: an association list from absolute paths (as segment
lists) to file data; a missing key is a file that does not exist or
cannot be read (the two skip cases of `processPage` collapse to this). -/
abbrev FS := List (List Str × FileData)

/-- First-match lookup in the filesystem. -/
def fsGet (fs : FS) (k : List Str) : Option FileData :=
  match fs with
  | [] => none
  | (k2, d) :: rest => if k2 = k then some d else fsGet rest k

/-- Write (update or create) of one file. -/
def fsSet (fs : FS) (k : List Str) (d : FileData) : FS :=
  match fs with
  | [] => [(k, d)]
  | (k2, d2) :: rest => if k2 = k then (k2, d) :: rest else (k2, d2) :: fsSet rest k d

/-- State threaded through the batch: the filesystem plus the warnings
logged for skipped pages (recorded by descriptor path). -/
structure RunState where
  fs : FS
  warnings : List Str
  deriving DecidableEq, Repr

/-- Transcription of `processPage` (lines 227-277) over the filesystem
model: a missing (or unreadable) target file logs a warning and leaves the
filesystem unchanged; otherwise the document is rewritten in place with
`processHtml` and its modification time becomes the write time `now`. -/
def processPageFS (publicSegs : List Str) (pages : List PageMeta) (now : Str)
    (st : RunState) (meta : PageMeta) : RunState :=
  match fsGet st.fs (resolvePath publicSegs meta.path) with
  | none => { st with warnings := st.warnings ++ [meta.path] }
  | some fd =>
    { st with
      fs := fsSet st.fs (resolvePath publicSegs meta.path)
        { content := processHtml pages meta fd.content, mtime := now } }

/-- The `pages.forEach(processPage)` loop (line 322). -/
def processAll (publicSegs : List Str) (pages : List PageMeta) (now : Str)
    (fs0 : FS) : RunState :=
  pages.foldl (processPageFS publicSegs pages now) { fs := fs0, warnings := [] }

/-- One sitemap `<url>` entry's field values. -/
structure SitemapEntry where
  loc : Str
  lastmod : Str
  changefreq : Str
  priority : Str
  deriving DecidableEq, Repr

/-- Decimal digits of a natural number. -/
def natDigits (n : Nat) : Str := Nat.toDigits 10 n

/-- Model of `Number.prototype.toFixed(1)` on the registry's priority
values: exact decimal rounding to one digit (round half up); on the
one-decimal-digit priorities a registry actually holds this coincides
with the double-precision behavior. -/
def toFixed1 (q : ℚ) : Str :=
  let n : ℤ := round (q * 10)
  let m := n.natAbs
  (if n < 0 then ['-'] else []) ++ natDigits (m / 10) ++ ('.' :: natDigits (m % 10))

/-- Transcription of the per-descriptor entry of `buildSitemap`
(lines 281-298): `loc` is the trailing-slash-normalized canonical,
`lastmod` the target file's modification time with the current time as
fallback when the stat fails, `changefreq`/`priority` from the descriptor
with the home/other defaults. -/
def sitemapEntry (publicSegs : List Str) (fs : FS) (now : Str) (p : PageMeta) :
    SitemapEntry :=
  let lastmod :=
    match fsGet fs (resolvePath publicSegs p.path) with
    | some fd => fd.mtime
    | none => now
  { loc := ensureTrailingSlash p.canonical,
    lastmod := lastmod,
    changefreq :=
      jsOr p.changefreq
        (if p.path = ("/index.html").toList then ("weekly").toList
         else ("monthly").toList),
    priority :=
      match p.priority with
      | some q => toFixed1 q
      | none =>
        if p.path = ("/index.html").toList then ("1.0").toList
        else ("0.8").toList }

/-- The `items.map(...)` of `buildSitemap`: one entry per descriptor, in
registry order, with no deduplication or sorting. -/
def buildSitemapEntries (publicSegs : List Str) (fs : FS) (now : Str)
    (items : List PageMeta) : List SitemapEntry :=
  items.map (sitemapEntry publicSegs fs now)

/-- The trimmed `<url>` template of one entry (lines 292-298). -/
def sitemapEntryXml (e : SitemapEntry) : Str :=
  ("<url>\n    <loc>").toList ++ e.loc
    ++ ("</loc>\n    <lastmod>").toList ++ e.lastmod
    ++ ("</lastmod>\n    <changefreq>").toList ++ e.changefreq
    ++ ("</changefreq>\n    <priority>").toList ++ e.priority
    ++ ("</priority>\n  </url>").toList

/-- The assembled sitemap document (lines 299-305). -/
def sitemapXml (entries : List SitemapEntry) : Str :=
  ("<?xml version=\"1.0\" encoding=\"UTF-8\"?>\n<urlset xmlns=\"http://www.sitemaps.org/schemas/sitemap/0.9\">\n").toList
    ++ ((entries.map sitemapEntryXml).intersperse (("\n").toList)).flatten
    ++ ("\n</urlset>\n").toList

/-- Absolute path of `sitemap.xml` under the public directory. -/
def sitemapKey (publicSegs : List Str) : List Str :=
  publicSegs ++ [("sitemap.xml").toList]

/-- Absolute path of `robots.txt` under the public directory. -/
def robotsKey (publicSegs : List Str) : List Str :=
  publicSegs ++ [("robots.txt").toList]

/-- The fixed robots body (lines 311-314);
`new URL("sitemap.xml", SITE_BASE)` resolves to the base plus
`sitemap.xml`. -/
def robotsBody : Str :=
  ("User-agent: *\nAllow: /\nSitemap: https://publisher.digestpaper.com/sitemap.xml\n").toList

/-- Transcription of `ensureRobots` (lines 310-319): `robots.txt` is
written only when absent. -/
def ensureRobots (publicSegs : List Str) (now : Str) (fs : FS) : FS :=
  match fsGet fs (robotsKey publicSegs) with
  | some _ => fs
  | none => fsSet fs (robotsKey publicSegs) { content := robotsBody, mtime := now }

/-- The whole run (lines 321-324): process every page, write the sitemap
built from the post-processing filesystem, then ensure robots.txt. -/
def runPipeline (publicSegs : List Str) (pages : List PageMeta) (now : Str)
    (fs0 : FS) : RunState :=
  let st := processAll publicSegs pages now fs0
  let entries := buildSitemapEntries publicSegs st.fs now pages
  let fs2 := fsSet st.fs (sitemapKey publicSegs) { content := sitemapXml entries, mtime := now }
  { st with fs := ensureRobots publicSegs now fs2 }

/-- Prefix of a string before its first `'?'` or `'#'` — the part of a
rendered URL that precedes any query or fragment. -/
def beforeQF : Str → Str
  | [] => []
  | c :: cs => if c = '?' ∨ c = '#' then [] else c :: beforeQF cs

/-- Claim C4's property of a rendered URL: it "ends in '/' before any
query or fragment". -/
def slashBeforeQuery (s : Str) : Bool := endsWithChar '/' (beforeQF s)

/-- The canonical attribute value as interpolated into
`<link rel="canonical" href="...">` (line 102, used at line 123):
trailing-slash normalization followed by HTML escaping. -/
def canonicalAttr (meta : PageMeta) : Str :=
  htmlEscape (ensureTrailingSlash meta.canonical)

/-- Concrete public directory used by the witnesses, as an absolute
segment list. -/
def pubFix : List Str := [("app").toList, ("public").toList]

/-- Concrete write/current time used by the witnesses. -/
def nowFix : Str := ("2026-01-01T00:00:00.000Z").toList

/-- Concrete descriptor for the idempotence analysis. -/
def pageC1 : PageMeta :=
  { path := ("/about.html").toList
    canonical := ("https://publisher.digestpaper.com/about/").toList
    title := some (("About").toList)
    description := some (("Over ons").toList) }

/-- Concrete already-injected-shape document without a viewport meta tag:
the idempotence failing input. -/
def docC1 : Str :=
  ("<html lang=\"nl\"><head>\n<!-- BEGIN HEAD POLICY -->\nX\n<!-- END HEAD POLICY --></head><body></body></html>").toList

/-- The part of `docC1` before its begin marker. -/
def preC1 : Str := ("<html lang=\"nl\"><head>\n").toList

/-- The part of `docC1` after its end marker. -/
def sufC1 : Str := ("</head><body></body></html>").toList

/-- Concrete descriptor whose description embeds a script tag. -/
def pageC2 : PageMeta :=
  { path := ("/x.html").toList
    canonical := ("https://publisher.digestpaper.com/x/").toList
    description := some (("x<script>alert(1)</script>y").toList) }

/-- Minimal host document for the escaping check. -/
def docC2 : Str := ("<html><head></head></html>").toList

/-- Concrete descriptor separating the claim's split rule from the
code's: two underscores in the language tag. -/
def pageC3 : PageMeta := { language := some (("nl_NL_x").toList) }

/-- Concrete descriptor whose canonical does not parse as a URL and
carries a query string. -/
def pageC4 : PageMeta :=
  { path := ("/f.html").toList, canonical := ("foo?q=1").toList }

/-- Concrete descriptor with a parseable canonical carrying a query. -/
def pageC4good : PageMeta :=
  { path := ("/g.html").toList
    canonical := ("https://publisher.digestpaper.com/a?q=1").toList }

/-- Home-page descriptor (JSON-LD always injected for `/index.html`). -/
def pageIdx : PageMeta :=
  { path := ("/index.html").toList
    canonical := ("https://publisher.digestpaper.com/").toList
    title := some (("Home").toList) }

/-- Second concrete registry page. -/
def pageB : PageMeta :=
  { path := ("/b.html").toList
    canonical := ("https://publisher.digestpaper.com/b/").toList
    title := some (("B").toList) }

/-- Third concrete registry page. -/
def pageCpg : PageMeta :=
  { path := ("/c.html").toList
    canonical := ("https://publisher.digestpaper.com/c/").toList
    title := some (("C").toList) }

/-- Three-page registry with `inGraph` unset on every page. -/
def regC5 : List PageMeta := [pageIdx, pageB, pageCpg]

/-- Host document with a `</head>` and no JSON-LD markers. -/
def docC6 : Str := ("<html><head></head><body></body></html>").toList

/-- Registry for the partial-failure scenario: three pages, the second
one's file will be missing. -/
def pagesC7 : List PageMeta := [pageIdx, pageB, pageCpg]

/-- Filesystem for the partial-failure scenario: files for the first and
third page only. -/
def fsC7 : FS :=
  [(resolvePath pubFix (("/index.html").toList),
      { content := docC6, mtime := ("2025-12-30T00:00:00.000Z").toList }),
   (resolvePath pubFix (("/c.html").toList),
      { content := docC6, mtime := ("2025-12-31T00:00:00.000Z").toList })]

/-- Pre-existing robots.txt with custom content. -/
def fsC8 : FS :=
  [(robotsKey pubFix,
      { content := ("User-agent: Google\nDisallow: /x/\n").toList
        mtime := ("2025-01-01T00:00:00.000Z").toList })]

/-- Registry with a duplicated descriptor, for the no-deduplication part
of the sitemap claim. -/
def itemsC9 : List PageMeta := [pageB, pageB, pageCpg]

theorem replaceAllChar_append (pat : Char) (rep a b : Str) :
    replaceAllChar pat rep (a ++ b)
      = replaceAllChar pat rep a ++ replaceAllChar pat rep b := by
  induction a with
  | nil => rfl
  | cons c cs ih => simp [replaceAllChar, ih, List.append_assoc]

theorem htmlEscape_append (a b : Str) :
    htmlEscape (a ++ b) = htmlEscape a ++ htmlEscape b := by
  simp [htmlEscape, replaceAllChar_append]

theorem htmlEscape_single (c : Char) :
    htmlEscape [c] =
      if c = '&' then ("&amp;").toList
      else if c = '<' then ("&lt;").toList
      else if c = '>' then ("&gt;").toList
      else if c = '"' then ("&quot;").toList
      else [c] := by
  by_cases h1 : c = '&'
  · subst h1; rfl
  · by_cases h2 : c = '<'
    · subst h2; rfl
    · by_cases h3 : c = '>'
      · subst h3; rfl
      · by_cases h4 : c = '"'
        · subst h4; rfl
        · simp [htmlEscape, replaceAllChar, h1, h2, h3, h4]

theorem htmlEscape_cons (c : Char) (cs : Str) :
    htmlEscape (c :: cs) = htmlEscape [c] ++ htmlEscape cs := by
  have h : c :: cs = [c] ++ cs := rfl
  rw [h, htmlEscape_append]

theorem htmlEscape_all_safe (s : Str) :
    (htmlEscape s).all (fun c => !(c = '<' || c = '>' || c = '"')) = true := by
  induction s with
  | nil => rfl
  | cons c cs ih =>
    rw [htmlEscape_cons, List.all_append, ih, htmlEscape_single]
    split_ifs with h1 h2 h3 h4
    · decide
    · decide
    · decide
    · decide
    · simp [h2, h3, h4]

/-- C2: every descriptor field interpolated into the head fragment is
HTML-escaped first; the escaper is an append homomorphism whose action on
single characters maps `&`, `<`, `>`, `"` to their entities and keeps
every other character, its output never contains a raw `<`, `>` or `"`,
and concretely a description containing `<script>` renders inside the
built head block as `&lt;script&gt;` and never as raw `<script` markup. -/
theorem thm_C2 :
    (∀ a b : Str, htmlEscape (a ++ b) = htmlEscape a ++ htmlEscape b)
  ∧ (∀ c : Char, htmlEscape [c] =
      if c = '&' then ("&amp;").toList
      else if c = '<' then ("&lt;").toList
      else if c = '>' then ("&gt;").toList
      else if c = '"' then ("&quot;").toList
      else [c])
  ∧ (∀ s : Str, (htmlEscape s).all (fun c => !(c = '<' || c = '>' || c = '"')) = true)
  ∧ htmlEscape (("<script>").toList) = ("&lt;script&gt;").toList
  ∧ includes (("&lt;script&gt;alert(1)&lt;/script&gt;").toList) (buildHead pageC2 docC2).block = true
  ∧ includes (("<script").toList) (buildHead pageC2 docC2).block = false :=
  ⟨htmlEscape_append, htmlEscape_single, htmlEscape_all_safe, by rfl, by rfl, by rfl⟩

/-- C3 counterexample: on `language = "nl_NL_x"` the code replaces only
the first underscore before splitting, yielding locale `"nl-NL_X"`,
while the claim's "splits on '-' or '_'" algorithm yields `"nl-NL"`; so
the claim as stated does not describe the code. -/
theorem thm_C3_counterexample :
    (normalizeLanguage pageC3).locale = ("nl-NL_X").toList
  ∧ (normalizeLanguageClaimC3 pageC3).locale = ("nl-NL").toList
  ∧ normalizeLanguage pageC3 ≠ normalizeLanguageClaimC3 pageC3 :=
  ⟨rfl, rfl, by decide⟩

/-- C3 as amended: the fallback chain is `language`, `locale`, `lang`,
then `"nl-NL"`; only the FIRST `'_'` is replaced by `'-'` before
splitting on `'-'`; the first segment (falling back to `"nl"` when
empty) is lower-cased as `lang`; the locale is `lang-UPPER(second)` when
a second segment exists, else `"en-US"` for `lang = "en"`, else
`lang-UPPER(lang)`; the four test vectors of the claim all hold. -/
theorem thm_C3 :
    (∀ m : PageMeta, normalizeLanguage m = normalizeLanguageAmendedC3 m)
  ∧ normalizeLanguage { language := some (("nl").toList) }
      = { lang := ("nl").toList, locale := ("nl-NL").toList }
  ∧ normalizeLanguage { language := some (("en").toList) }
      = { lang := ("en").toList, locale := ("en-US").toList }
  ∧ normalizeLanguage { locale := some (("fr-CA").toList) }
      = { lang := ("fr").toList, locale := ("fr-CA").toList }
  ∧ normalizeLanguage {} = { lang := ("nl").toList, locale := ("nl-NL").toList } :=
  ⟨fun _ => rfl, by decide, by decide, by decide, by decide⟩

theorem beforeQF_append (a b : Str) (ha : ∀ c ∈ a, ¬(c = '?' ∨ c = '#')) :
    beforeQF (a ++ b) = a ++ beforeQF b := by
  induction a with
  | nil => rfl
  | cons c cs ih =>
    have hc := ha c (List.mem_cons_self c cs)
    have ih2 := ih (fun x hx => ha x (List.mem_cons_of_mem c hx))
    show beforeQF (c :: (cs ++ b)) = c :: (cs ++ beforeQF b)
    rw [show beforeQF (c :: (cs ++ b))
        = if c = '?' ∨ c = '#' then [] else c :: beforeQF (cs ++ b) from rfl,
      if_neg hc, ih2]

theorem htmlEscape_no_qf (s : Str) (hs : ∀ c ∈ s, ¬(c = '?' ∨ c = '#')) :
    ∀ c ∈ htmlEscape s, ¬(c = '?' ∨ c = '#') := by
  induction s with
  | nil => intro c hc; simp [htmlEscape, replaceAllChar] at hc
  | cons c cs ih =>
    intro x hx
    rw [htmlEscape_cons] at hx
    rcases List.mem_append.mp hx with hx1 | hx2
    · rw [htmlEscape_single] at hx1
      split_ifs at hx1 with h1 h2 h3 h4
      · exact (by decide : ∀ y ∈ ("&amp;").toList, ¬(y = '?' ∨ y = '#')) x hx1
      · exact (by decide : ∀ y ∈ ("&lt;").toList, ¬(y = '?' ∨ y = '#')) x hx1
      · exact (by decide : ∀ y ∈ ("&gt;").toList, ¬(y = '?' ∨ y = '#')) x hx1
      · exact (by decide : ∀ y ∈ ("&quot;").toList, ¬(y = '?' ∨ y = '#')) x hx1
      · rw [List.mem_singleton] at hx1
        exact hx1 ▸ hs c (List.mem_cons_self c cs)
    · exact ih (fun y hy => hs y (List.mem_cons_of_mem c hy)) x hx2

theorem splitPQF_fst (r : Str) :
    (splitPQF r).1 = r.takeWhile (fun c => !(c = '?' || c = '#')) := by
  simp only [splitPQF]
  split
  · rfl
  · split
    · split
      · rfl
      · rfl
    · rfl

theorem validScheme_no_qf (s : Str) (hv : validScheme s = true) :
    ∀ c ∈ s, ¬(c = '?' ∨ c = '#') := by
  cases s with
  | nil => exact absurd hv (by decide)
  | cons c0 cs0 =>
    unfold validScheme at hv
    rw [Bool.and_eq_true] at hv
    intro c hc
    rcases List.mem_cons.mp hc with rfl | hmem
    · intro hor
      rcases hor with rfl | rfl
      · exact absurd hv.1 (by decide)
      · exact absurd hv.1 (by decide)
    · have hsc := List.all_eq_true.mp hv.2 c hmem
      intro hor
      rcases hor with rfl | rfl
      · exact absurd hsc (by decide)
      · exact absurd hsc (by decide)

theorem parseURL_components (u : Str) (mu : ModelURL) (h : parseURL u = some mu) :
    (∀ c ∈ mu.scheme, ¬(c = '?' ∨ c = '#'))
  ∧ (∀ c ∈ mu.host, ¬(c = '?' ∨ c = '#'))
  ∧ (∀ c ∈ mu.path, ¬(c = '?' ∨ c = '#'))
  ∧ mu.path ≠ [] := by
  unfold parseURL at h
  split at h
  · exact absurd h (by simp)
  · next s rest heq =>
    split at h
    · next hv =>
      have hrec := Option.some.inj h
      subst hrec
      refine ⟨validScheme_no_qf s hv, ?_, ?_, ?_⟩
      · intro c hc
        have hpred := List.mem_takeWhile_imp hc
        intro hor
        rcases hor with rfl | rfl
        · exact absurd hpred (by decide)
        · exact absurd hpred (by decide)
      · intro c hc
        simp only at hc
        split at hc
        · rw [List.mem_singleton] at hc
          subst hc
          decide
        · rw [splitPQF_fst] at hc
          have hpred := List.mem_takeWhile_imp hc
          intro hor
          rcases hor with rfl | rfl
          · exact absurd hpred (by decide)
          · exact absurd hpred (by decide)
      · simp only
        split
        · decide
        · next hpe => exact hpe
    · exact absurd h (by simp)

theorem endsWith_slash_exists (s : Str) (h : endsWithChar '/' s = true) :
    ∃ w, s = w ++ ['/'] := by
  unfold endsWithChar at h
  exact List.getLast?_eq_some_iff.mp (of_decide_eq_true h)

theorem slashBeforeQuery_main (A QF : Str)
    (hA : ∀ c ∈ A, ¬(c = '?' ∨ c = '#'))
    (hQF : QF = [] ∨ (∃ t, QF = '?' :: t) ∨ (∃ t, QF = '#' :: t))
    (hAe : ∃ w, A = w ++ ['/']) :
    slashBeforeQuery (htmlEscape (A ++ QF)) = true := by
  obtain ⟨w, hw⟩ := hAe
  unfold slashBeforeQuery
  rw [htmlEscape_append, beforeQF_append _ _ (htmlEscape_no_qf A hA)]
  have hq : beforeQF (htmlEscape QF) = [] := by
    rcases hQF with rfl | ⟨t, rfl⟩ | ⟨t, rfl⟩
    · rfl
    · rw [htmlEscape_cons, (by decide : htmlEscape ['?'] = ['?'])]
      simp [beforeQF]
    · rw [htmlEscape_cons, (by decide : htmlEscape ['#'] = ['#'])]
      simp [beforeQF]
  rw [hq, List.append_nil, hw, htmlEscape_append,
    (by decide : htmlEscape ['/'] = ['/'])]
  unfold endsWithChar
  rw [List.getLast?_concat]
  decide

/-- C4 as amended: for a canonical that parses as a hierarchical
`scheme://host` URL, the rendered `<link rel="canonical">` value ends in
`/` before any query or fragment; for a canonical the URL parser rejects,
the fallback appends `/` at the very end of the whole string (after any
query) when not already present. -/
theorem thm_C4 :
    (∀ (m : PageMeta) (mu : ModelURL), parseURL m.canonical = some mu →
        slashBeforeQuery (canonicalAttr m) = true)
  ∧ (∀ m : PageMeta, parseURL m.canonical = none →
        canonicalAttr m = htmlEscape
          (if endsWithChar '/' m.canonical then m.canonical else m.canonical ++ ['/'])) := by
  constructor
  · intro m mu h
    obtain ⟨hsch, hhost, hpath, hpne⟩ := parseURL_components _ _ h
    unfold canonicalAttr ensureTrailingSlash
    rw [h]
    unfold serializeURL
    dsimp only
    have hp2e : ∃ w, (if endsWithChar '/' mu.path then mu.path else mu.path ++ ['/'])
        = w ++ ['/'] := by
      split
      · exact endsWith_slash_exists _ (by assumption)
      · exact ⟨mu.path, rfl⟩
    have hp2nq : ∀ c ∈ (if endsWithChar '/' mu.path then mu.path else mu.path ++ ['/']),
        ¬(c = '?' ∨ c = '#') := by
      split
      · exact hpath
      · intro c hc
        rcases List.mem_append.mp hc with h1 | h2
        · exact hpath c h1
        · rw [List.mem_singleton] at h2; subst h2; decide
    rw [List.append_assoc (mu.scheme ++ ("://").toList ++ mu.host
      ++ (if endsWithChar '/' mu.path then mu.path else mu.path ++ ['/']))]
    apply slashBeforeQuery_main
    · intro c hc
      rcases List.mem_append.mp hc with hc1 | hc2
      · rcases List.mem_append.mp hc1 with hc3 | hc4
        · rcases List.mem_append.mp hc3 with hc5 | hc6
          · exact hsch c hc5
          · exact (by decide : ∀ y ∈ ("://").toList, ¬(y = '?' ∨ y = '#')) c hc6
        · exact hhost c hc4
      · exact hp2nq c hc2
    · cases hq : mu.query with
      | some qv =>
        right; left
        exact ⟨qv ++ (match mu.fragment with | some f => '#' :: f | none => []),
          by rfl⟩
      | none =>
        cases hf : mu.fragment with
        | some fv =>
          right; right
          exact ⟨fv, by rfl⟩
        | none =>
          left
          rfl
    · obtain ⟨w, hw⟩ := hp2e
      rw [hw]
      exact ⟨mu.scheme ++ ("://").toList ++ mu.host ++ w, by simp [List.append_assoc]⟩
  · intro m h
    unfold canonicalAttr ensureTrailingSlash
    rw [h]

/-- C4 counterexample: the canonical input `"foo?q=1"` (no trailing
slash, with a query string) renders as `"foo?q=1/"`; the part before the
query is `"foo"`, which does not end in `/` — the slash lands after the
query, so the claim as stated fails. -/
theorem thm_C4_counterexample :
    canonicalAttr pageC4 = ("foo?q=1/").toList
  ∧ slashBeforeQuery (canonicalAttr pageC4) = false
  ∧ endsWithChar '/' (canonicalAttr pageC4) = true := by
  refine ⟨by decide, by decide, by decide⟩

/-- C4 witness: a parseable canonical with a query renders with the slash
before the query. -/
theorem thm_C4_witness : slashBeforeQuery (canonicalAttr pageC4good) = true :=
  thm_C4.1 pageC4good
    { scheme := ("https").toList
      host := ("publisher.digestpaper.com").toList
      path := ("/a").toList
      query := some (("q=1").toList)
      fragment := none }
    (by decide)

/-- C5: the built `@graph` has the Organization node at index 0, the
WebSite node at index 1, then exactly one WebPage node per descriptor
with `inGraph` not `false`, in registry order; each WebPage node has
`@id` = trailing-slash-normalized canonical plus `#webpage` (equal to
`canonical ++ "#webpage"` whenever the canonical is already normalized),
`isPartOf` the WebSite id and `inLanguage` the page's normalized locale;
for three pages with `inGraph` unset the array has length 5. -/
theorem thm_C5 :
    (∀ ps : List PageMeta,
        (buildGraphNodes ps).length = 2 + (inGraphPages ps).length
      ∧ (buildGraphNodes ps)[0]? = some orgNode
      ∧ (buildGraphNodes ps)[1]? = some websiteNode
      ∧ (∀ (i : Nat) (p : PageMeta), (inGraphPages ps)[i]? = some p →
          (buildGraphNodes ps)[i + 2]? = some (GraphNode.webpage
            (ensureTrailingSlash p.canonical ++ ("#webpage").toList)
            (ensureTrailingSlash p.canonical) p.title p.description siteIdStr
            (normalizeLanguage p).locale))
      ∧ (∀ p : PageMeta, ensureTrailingSlash p.canonical = p.canonical →
          webpageNode p = GraphNode.webpage (p.canonical ++ ("#webpage").toList)
            p.canonical p.title p.description siteIdStr (normalizeLanguage p).locale))
  ∧ (buildGraphNodes regC5).length = 5 := by
  constructor
  · intro ps
    refine ⟨?_, by simp [buildGraphNodes], by simp [buildGraphNodes], ?_, ?_⟩
    · simp only [buildGraphNodes, List.length_cons, List.length_map]
      omega
    · intro i p hp
      show (orgNode :: websiteNode :: (inGraphPages ps).map webpageNode)[i + 2]? = _
      rw [List.getElem?_cons_succ, List.getElem?_cons_succ, List.getElem?_map, hp]
      rfl
    · intro p hp
      unfold webpageNode
      rw [hp]
  · rfl

/-- C5 witness: in the three-page registry the first page's WebPage node
sits at index 2 with the stated fields. -/
theorem thm_C5_witness :
    (buildGraphNodes regC5)[0 + 2]? = some (GraphNode.webpage
      (ensureTrailingSlash pageIdx.canonical ++ ("#webpage").toList)
      (ensureTrailingSlash pageIdx.canonical) pageIdx.title pageIdx.description
      siteIdStr (normalizeLanguage pageIdx).locale) :=
  (thm_C5.1 regC5).2.2.2.1 0 pageIdx (by decide)

/-- C6: the JSON-LD block is injected iff `jsonldOnPage === true`,
`injectJsonLd === true` or the page path is `/index.html`; when injected
it replaces the region between the JSON-LD PUBLISHER markers when the
begin marker is present, else it is inserted immediately before the first
(case-insensitive) `</head>`, else it is appended to the end of the
document. -/
theorem thm_C6 : ∀ (pages : List PageMeta) (meta : PageMeta) (html : Str),
    wantsJsonLd meta = (meta.jsonldOnPage == some true || meta.injectJsonLd == some true
        || meta.path == ("/index.html").toList)
  ∧ (wantsJsonLd meta = false → processHtml pages meta html = headStage meta html)
  ∧ (wantsJsonLd meta = true →
        processHtml pages meta html = injectJsonLdBlock pages (headStage meta html))
  ∧ (includes BEGIN_JLD html = true →
        injectJsonLdBlock pages html
          = replaceBetween html BEGIN_JLD END_JLD (jsonLdBlock pages))
  ∧ (includes BEGIN_JLD html = false → includesCI (("</head>").toList) html = true →
        ∀ pre suf, breakOnCI (("</head>").toList) html = some (pre, suf) →
          injectJsonLdBlock pages html
            = pre ++ jsonLdBlock pages ++ ("\n</head>").toList ++ suf)
  ∧ (includes BEGIN_JLD html = false → includesCI (("</head>").toList) html = false →
        injectJsonLdBlock pages html = html ++ ('\n' :: jsonLdBlock pages) ++ ['\n']) := by
  intro pages meta html
  refine ⟨rfl, ?_, ?_, ?_, ?_, ?_⟩
  · intro hw
    unfold processHtml
    simp [hw]
  · intro hw
    unfold processHtml
    simp [hw]
  · intro hb
    unfold injectJsonLdBlock
    rw [if_pos hb]
  · intro hb hh pre suf hbc
    unfold injectJsonLdBlock
    rw [if_neg (by simp [hb]), if_pos hh, hbc]
  · intro hb hh
    unfold injectJsonLdBlock
    rw [if_neg (by simp [hb]), if_neg (by rw [hh]; decide)]

/-- C6 witness: the home page opts in unconditionally, and the JSON-LD
stage runs on its document. -/
theorem thm_C6_witness :
    processHtml regC5 pageIdx docC6 = injectJsonLdBlock regC5 (headStage pageIdx docC6) :=
  (thm_C6 regC5 pageIdx docC6).2.2.1 (by rfl)

/-- C9: the sitemap has exactly one entry per descriptor in registry
order with no deduplication or sorting (append decomposes pointwise, so
duplicate descriptors yield duplicate entries); each entry's `loc` is the
trailing-slash-normalized canonical, `lastmod` is the target file's
modification time falling back to the current time when the stat fails,
and `changefreq`/`priority` come from the descriptor with defaults
`weekly`/`1.0` for `/index.html` and `monthly`/`0.8` otherwise. -/
theorem thm_C9 : ∀ (publicSegs : List Str) (fs : FS) (now : Str) (items : List PageMeta),
    (buildSitemapEntries publicSegs fs now items).length = items.length
  ∧ (∀ a b : List PageMeta, buildSitemapEntries publicSegs fs now (a ++ b)
      = buildSitemapEntries publicSegs fs now a ++ buildSitemapEntries publicSegs fs now b)
  ∧ (∀ (l1 : List PageMeta) (p : PageMeta) (l2 : List PageMeta), items = l1 ++ p :: l2 →
      (buildSitemapEntries publicSegs fs now items)[l1.length]?
        = some (sitemapEntry publicSegs fs now p))
  ∧ (∀ p : PageMeta,
        (sitemapEntry publicSegs fs now p).loc = ensureTrailingSlash p.canonical
      ∧ (sitemapEntry publicSegs fs now p).lastmod
          = (match fsGet fs (resolvePath publicSegs p.path) with
             | some fd => fd.mtime
             | none => now)
      ∧ (sitemapEntry publicSegs fs now p).changefreq
          = jsOr p.changefreq (if p.path = ("/index.html").toList
              then ("weekly").toList else ("monthly").toList)
      ∧ (sitemapEntry publicSegs fs now p).priority
          = (match p.priority with
             | some q => toFixed1 q
             | none => if p.path = ("/index.html").toList
                 then ("1.0").toList else ("0.8").toList)) := by
  intro publicSegs fs now items
  refine ⟨?_, ?_, ?_, ?_⟩
  · simp [buildSitemapEntries]
  · intro a b
    simp [buildSitemapEntries]
  · intro l1 p l2 hitems
    subst hitems
    unfold buildSitemapEntries
    rw [List.getElem?_map, List.getElem?_append_right (Nat.le_refl _), Nat.sub_self,
      List.getElem?_cons_zero]
    rfl
  · intro p
    exact ⟨rfl, rfl, rfl, rfl⟩

/-- C9 witness: in a registry with a duplicated descriptor the second
copy still yields its own entry at its own position. -/
theorem thm_C9_witness :
    (buildSitemapEntries pubFix fsC7 nowFix itemsC9)[1]?
      = some (sitemapEntry pubFix fsC7 nowFix pageB) :=
  ((thm_C9 pubFix fsC7 nowFix itemsC9).2.2.1 [pageB] pageB [pageCpg] (by rfl))

/-- C10 counterexample: the descriptor path `"/../secret.html"` has a
leading slash, yet after the single-slash strip the `".."` segment makes
`path.join` resolve one level above the public directory, so the claim's
"never resolves outside the public directory's join base" fails. -/
theorem thm_C10_counterexample :
    (("/../secret.html").toList).headD ' ' = '/'
  ∧ resolvePath pubFix (("/../secret.html").toList)
      = [("app").toList, ("secret.html").toList]
  ∧ ¬ (pubFix <+: resolvePath pubFix (("/../secret.html").toList)) := by
  refine ⟨by decide, by decide, by decide⟩

/-- C10 as amended: the resolved file is obtained by stripping one
leading `'/'` and joining under the public directory, and `path.join`
concatenates rather than resolving, so a leading slash never resets the
join to the filesystem root; but `".."` segments can still traverse out,
so the resolved path is guaranteed under the public directory only when
the stripped path contains no `".."` segment. -/
theorem thm_C10 : ∀ (publicSegs : List Str) (metaPath : Str),
    (∀ rest : Str, metaPath = '/' :: rest →
        resolvePath publicSegs metaPath = normJoin publicSegs rest)
  ∧ ((("..").toList) ∉ segsOf (relFromPublic metaPath) →
        publicSegs <+: resolvePath publicSegs metaPath) := by
  intro publicSegs metaPath
  constructor
  · intro rest h
    subst h
    rfl
  · intro hnd
    unfold resolvePath normJoin
    have gen : ∀ (l : List Str) (base : List Str), (("..").toList) ∉ l →
        base <+: l.foldl
          (fun acc seg => if seg = ("..").toList then acc.dropLast else acc ++ [seg])
          base := by
      intro l
      induction l with
      | nil => intro base _; exact List.prefix_refl base
      | cons s ls ih =>
        intro base hmem
        have hs : s ≠ ("..").toList := fun he => hmem (he ▸ List.mem_cons_self s ls)
        show base <+: List.foldl _ (if s = ("..").toList then base.dropLast else base ++ [s]) ls
        rw [if_neg hs]
        exact (List.prefix_append base [s]).trans
          (ih (base ++ [s]) (fun hm => hmem (List.mem_cons_of_mem s hm)))
    exact gen _ publicSegs hnd

/-- C10 witness: an ordinary leading-slash path stays under the public
directory. -/
theorem thm_C10_witness : pubFix <+: resolvePath pubFix (("/a.html").toList) :=
  (thm_C10 pubFix (("/a.html").toList)).2 (by decide)

theorem fsGet_fsSet_self (fs : FS) (k : List Str) (d : FileData) :
    fsGet (fsSet fs k d) k = some d := by
  induction fs with
  | nil => simp [fsSet, fsGet]
  | cons kv rest ih =>
    obtain ⟨k2, d2⟩ := kv
    by_cases hk : k2 = k
    · simp [fsSet, fsGet, hk]
    · simp [fsSet, fsGet, hk, ih]

theorem fsGet_fsSet_ne (fs : FS) (k k' : List Str) (d : FileData) (h : k' ≠ k) :
    fsGet (fsSet fs k d) k' = fsGet fs k' := by
  have h2 : ¬(k = k') := fun he => h he.symm
  induction fs with
  | nil => simp [fsSet, fsGet, h2]
  | cons kv rest ih =>
    obtain ⟨k2, d2⟩ := kv
    by_cases hk : k2 = k
    · subst hk
      simp [fsSet, fsGet, h2]
    · simp [fsSet, fsGet, hk, ih]

theorem processPageFS_preserve (publicSegs : List Str) (pages : List PageMeta)
    (now : Str) (st : RunState) (meta : PageMeta) (k : List Str)
    (h : resolvePath publicSegs meta.path ≠ k) :
    fsGet (processPageFS publicSegs pages now st meta).fs k = fsGet st.fs k := by
  unfold processPageFS
  cases hm : fsGet st.fs (resolvePath publicSegs meta.path) with
  | none => rfl
  | some fd => exact fsGet_fsSet_ne _ _ _ _ (fun he => h he.symm)

theorem processPageFS_preserve_none (publicSegs : List Str) (pages : List PageMeta)
    (now : Str) (st : RunState) (meta : PageMeta) (k : List Str)
    (h : fsGet st.fs k = none) :
    fsGet (processPageFS publicSegs pages now st meta).fs k = none := by
  by_cases hk : resolvePath publicSegs meta.path = k
  · unfold processPageFS
    rw [hk, h]
    exact h
  · rw [processPageFS_preserve _ _ _ _ _ _ hk]
    exact h

theorem processPageFS_miss (publicSegs : List Str) (pages : List PageMeta)
    (now : Str) (st : RunState) (meta : PageMeta)
    (h : fsGet st.fs (resolvePath publicSegs meta.path) = none) :
    processPageFS publicSegs pages now st meta
      = { st with warnings := st.warnings ++ [meta.path] } := by
  unfold processPageFS
  rw [h]

theorem processPageFS_hit (publicSegs : List Str) (pages : List PageMeta)
    (now : Str) (st : RunState) (meta : PageMeta) (d : FileData)
    (h : fsGet st.fs (resolvePath publicSegs meta.path) = some d) :
    processPageFS publicSegs pages now st meta
      = { st with fs := fsSet st.fs (resolvePath publicSegs meta.path) { content := processHtml pages meta d.content, mtime := now } } := by
  unfold processPageFS
  rw [h]

theorem foldl_fs_preserve (publicSegs : List Str) (pages : List PageMeta)
    (now : Str) (l : List PageMeta) (k : List Str)
    (h : ∀ m ∈ l, resolvePath publicSegs m.path ≠ k) :
    ∀ st : RunState,
      fsGet (l.foldl (processPageFS publicSegs pages now) st).fs k = fsGet st.fs k := by
  induction l with
  | nil => intro st; rfl
  | cons m ls ih =>
    intro st
    rw [List.foldl_cons,
      ih (fun x hx => h x (List.mem_cons_of_mem m hx)),
      processPageFS_preserve _ _ _ _ _ _ (h m (List.mem_cons_self m ls))]

theorem foldl_fs_preserve_none (publicSegs : List Str) (pages : List PageMeta)
    (now : Str) (l : List PageMeta) (k : List Str) :
    ∀ st : RunState, fsGet st.fs k = none →
      fsGet (l.foldl (processPageFS publicSegs pages now) st).fs k = none := by
  induction l with
  | nil => intro st h; exact h
  | cons m ls ih =>
    intro st h
    rw [List.foldl_cons]
    exact ih _ (processPageFS_preserve_none _ _ _ _ _ _ h)

theorem processPageFS_warnings_mono (publicSegs : List Str) (pages : List PageMeta)
    (now : Str) (st : RunState) (meta : PageMeta) (w : Str)
    (h : w ∈ st.warnings) :
    w ∈ (processPageFS publicSegs pages now st meta).warnings := by
  unfold processPageFS
  cases hm : fsGet st.fs (resolvePath publicSegs meta.path) with
  | none => exact List.mem_append_left _ h
  | some fd => exact h

theorem foldl_warnings_mono (publicSegs : List Str) (pages : List PageMeta)
    (now : Str) (l : List PageMeta) (w : Str) :
    ∀ st : RunState, w ∈ st.warnings →
      w ∈ (l.foldl (processPageFS publicSegs pages now) st).warnings := by
  induction l with
  | nil => intro st h; exact h
  | cons m ls ih =>
    intro st h
    rw [List.foldl_cons]
    exact ih _ (processPageFS_warnings_mono _ _ _ _ _ _ h)

theorem sitemapKey_ne_robotsKey (publicSegs : List Str) :
    sitemapKey publicSegs ≠ robotsKey publicSegs := by
  intro h
  have h2 := List.append_cancel_left h
  exact absurd h2 (by decide)

theorem ensureRobots_preserve (publicSegs : List Str) (now : Str) (fs : FS)
    (k : List Str) (h : k ≠ robotsKey publicSegs) :
    fsGet (ensureRobots publicSegs now fs) k = fsGet fs k := by
  unfold ensureRobots
  cases hm : fsGet fs (robotsKey publicSegs) with
  | some fd => rfl
  | none => exact fsGet_fsSet_ne _ _ _ _ h

/-- C8: when no descriptor resolves to the robots path, a full pipeline
run leaves a pre-existing `robots.txt` byte-identical (content and
mtime); when `robots.txt` is absent it is created with the fixed
`User-agent: *` / `Allow: /` body plus the sitemap reference. -/
theorem thm_C8 : ∀ (publicSegs : List Str) (pages : List PageMeta) (now : Str) (fs0 : FS),
    (∀ p ∈ pages, resolvePath publicSegs p.path ≠ robotsKey publicSegs) →
    (∀ d : FileData, fsGet fs0 (robotsKey publicSegs) = some d →
        fsGet (runPipeline publicSegs pages now fs0).fs (robotsKey publicSegs) = some d)
  ∧ (fsGet fs0 (robotsKey publicSegs) = none →
        fsGet (runPipeline publicSegs pages now fs0).fs (robotsKey publicSegs)
          = some { content := robotsBody, mtime := now }) := by
  intro publicSegs pages now fs0 hnr
  have hpre : fsGet (fsSet (processAll publicSegs pages now fs0).fs
      (sitemapKey publicSegs)
      { content := sitemapXml (buildSitemapEntries publicSegs
          (processAll publicSegs pages now fs0).fs now pages), mtime := now })
      (robotsKey publicSegs) = fsGet fs0 (robotsKey publicSegs) := by
    rw [fsGet_fsSet_ne _ _ _ _ (fun he => sitemapKey_ne_robotsKey publicSegs he.symm)]
    exact foldl_fs_preserve publicSegs pages now pages (robotsKey publicSegs) hnr
      { fs := fs0, warnings := [] }
  constructor
  · intro d hd
    show fsGet (ensureRobots publicSegs now _) (robotsKey publicSegs) = some d
    unfold ensureRobots
    rw [hpre, hd]
    exact hpre.trans hd
  · intro hd
    show fsGet (ensureRobots publicSegs now _) (robotsKey publicSegs)
      = some { content := robotsBody, mtime := now }
    unfold ensureRobots
    rw [hpre, hd]
    exact fsGet_fsSet_self _ _ _

/-- C8 witness: with a one-page registry and a pre-existing custom
robots.txt, the pipeline leaves the robots file untouched. -/
theorem thm_C8_witness :
    fsGet (runPipeline pubFix [pageIdx] nowFix fsC8).fs (robotsKey pubFix)
      = some { content := ("User-agent: Google\nDisallow: /x/\n").toList
               mtime := ("2025-01-01T00:00:00.000Z").toList } :=
  (thm_C8 pubFix [pageIdx] nowFix fsC8 (by decide)).1 _ (by decide)

/-- C7: in a run where some descriptor's target file is missing, that
page is skipped with a warning and its file stays unwritten, every other
descriptor with an existing file is still processed to completion (its
file is rewritten with the processed document), and the sitemap still
contains one entry per descriptor in registry order, the skipped one
included.  Hypotheses: the descriptors resolve to pairwise distinct
files, none of which is the sitemap or robots path. -/
theorem thm_C7 : ∀ (publicSegs : List Str) (pages : List PageMeta) (now : Str) (fs0 : FS),
    (pages.map (fun p => resolvePath publicSegs p.path)).Nodup →
    (∀ p ∈ pages, resolvePath publicSegs p.path ≠ sitemapKey publicSegs) →
    (∀ p ∈ pages, resolvePath publicSegs p.path ≠ robotsKey publicSegs) →
    (∀ (l1 : List PageMeta) (p : PageMeta) (l2 : List PageMeta), pages = l1 ++ p :: l2 →
        fsGet fs0 (resolvePath publicSegs p.path) = none →
          fsGet (runPipeline publicSegs pages now fs0).fs (resolvePath publicSegs p.path)
            = none
        ∧ p.path ∈ (runPipeline publicSegs pages now fs0).warnings)
  ∧ (∀ (l1 : List PageMeta) (q : PageMeta) (l2 : List PageMeta), pages = l1 ++ q :: l2 →
      ∀ d : FileData, fsGet fs0 (resolvePath publicSegs q.path) = some d →
        fsGet (runPipeline publicSegs pages now fs0).fs (resolvePath publicSegs q.path)
          = some { content := processHtml pages q d.content, mtime := now })
  ∧ (buildSitemapEntries publicSegs (processAll publicSegs pages now fs0).fs now pages).length
      = pages.length
  ∧ (∀ (l1 : List PageMeta) (p : PageMeta) (l2 : List PageMeta), pages = l1 ++ p :: l2 →
      (buildSitemapEntries publicSegs (processAll publicSegs pages now fs0).fs now
          pages)[l1.length]?
        = some (sitemapEntry publicSegs (processAll publicSegs pages now fs0).fs now p)) := by
  intro publicSegs pages now fs0 hnd hns hnr
  refine ⟨?_, ?_, ?_, ?_⟩
  · intro l1 p l2 hdec hmiss
    subst hdec
    have hp_mem : p ∈ l1 ++ p :: l2 :=
      List.mem_append_right l1 (List.mem_cons_self p l2)
    have habs : fsGet (processAll publicSegs (l1 ++ p :: l2) now fs0).fs
        (resolvePath publicSegs p.path) = none :=
      foldl_fs_preserve_none publicSegs (l1 ++ p :: l2) now (l1 ++ p :: l2) _
        { fs := fs0, warnings := [] } hmiss
    constructor
    · show fsGet (ensureRobots publicSegs now
        (fsSet (processAll publicSegs (l1 ++ p :: l2) now fs0).fs
          (sitemapKey publicSegs) _)) (resolvePath publicSegs p.path) = none
      rw [ensureRobots_preserve _ _ _ _ (hnr p hp_mem),
        fsGet_fsSet_ne _ _ _ _ (hns p hp_mem)]
      exact habs
    · show p.path ∈ (processAll publicSegs (l1 ++ p :: l2) now fs0).warnings
      unfold processAll
      rw [List.foldl_append, List.foldl_cons]
      apply foldl_warnings_mono
      have h1 : fsGet ((l1.foldl (processPageFS publicSegs (l1 ++ p :: l2) now)
          { fs := fs0, warnings := [] }).fs) (resolvePath publicSegs p.path) = none :=
        foldl_fs_preserve_none publicSegs (l1 ++ p :: l2) now l1 _ _ hmiss
      rw [processPageFS_miss _ _ _ _ _ h1]
      exact List.mem_append_right _ (List.mem_cons_self _ _)
  · intro l1 q l2 hdec d hd
    subst hdec
    have hq_mem : q ∈ l1 ++ q :: l2 :=
      List.mem_append_right l1 (List.mem_cons_self q l2)
    rw [List.map_append, List.map_cons, List.nodup_append] at hnd
    obtain ⟨hn1, hn2, hdisj⟩ := hnd
    have hq_notin_l2 := (List.nodup_cons.mp hn2).1
    have hl1 : ∀ m ∈ l1,
        resolvePath publicSegs m.path ≠ resolvePath publicSegs q.path := by
      intro m hm he
      exact hdisj (he ▸ List.mem_map_of_mem _ hm) (List.mem_cons_self _ _)
    have hl2 : ∀ m ∈ l2,
        resolvePath publicSegs m.path ≠ resolvePath publicSegs q.path := by
      intro m hm he
      exact hq_notin_l2 (he ▸ List.mem_map_of_mem _ hm)
    show fsGet (ensureRobots publicSegs now
      (fsSet (processAll publicSegs (l1 ++ q :: l2) now fs0).fs
        (sitemapKey publicSegs) _)) (resolvePath publicSegs q.path) = _
    rw [ensureRobots_preserve _ _ _ _ (hnr q hq_mem),
      fsGet_fsSet_ne _ _ _ _ (hns q hq_mem)]
    show fsGet ((l1 ++ q :: l2).foldl (processPageFS publicSegs (l1 ++ q :: l2) now)
      { fs := fs0, warnings := [] }).fs (resolvePath publicSegs q.path) = _
    rw [List.foldl_append, List.foldl_cons,
      foldl_fs_preserve publicSegs (l1 ++ q :: l2) now l2 _ hl2]
    have h1 : fsGet ((l1.foldl (processPageFS publicSegs (l1 ++ q :: l2) now)
        { fs := fs0, warnings := [] }).fs) (resolvePath publicSegs q.path)
        = fsGet fs0 (resolvePath publicSegs q.path) :=
      foldl_fs_preserve publicSegs (l1 ++ q :: l2) now l1 _ hl1 _
    rw [processPageFS_hit _ _ _ _ _ d (h1.trans hd)]
    exact fsGet_fsSet_self _ _ _
  · simp [buildSitemapEntries]
  · intro l1 p l2 hdec
    subst hdec
    unfold buildSitemapEntries
    rw [List.getElem?_map, List.getElem?_append_right (Nat.le_refl _), Nat.sub_self,
      List.getElem?_cons_zero]
    rfl

/-- C7 witness: three descriptors, the second one's file missing; its
file stays absent and a warning is recorded, while the sitemap keeps
three entries. -/
theorem thm_C7_witness :
    (fsGet (runPipeline pubFix pagesC7 nowFix fsC7).fs
        (resolvePath pubFix pageB.path) = none
      ∧ pageB.path ∈ (runPipeline pubFix pagesC7 nowFix fsC7).warnings)
  ∧ (buildSitemapEntries pubFix (processAll pubFix pagesC7 nowFix fsC7).fs nowFix
      pagesC7).length = pagesC7.length :=
  ⟨(thm_C7 pubFix pagesC7 nowFix fsC7 (by decide) (by decide) (by decide)).1
      [pageIdx] pageB [pageCpg] (by rfl) (by decide),
    (thm_C7 pubFix pagesC7 nowFix fsC7 (by decide) (by decide) (by decide)).2.2.1⟩

theorem buildHead_block (m : PageMeta) (h : Str) :
    (buildHead m h).block = headBlockPre m
      ++ ('\n' :: (if hasViewportMeta h then [] else viewportMetaTag))
      ++ headBlockEnd := rfl

theorem docC1_no_viewport : hasViewportMeta docC1 = false := by rfl

theorem run1_eq : processHtml [] pageC1 docC1
    = (preC1 ++ (buildHead pageC1 docC1).block) ++ sufC1 := by rfl

theorem run1_has_viewport : hasViewportMeta (processHtml [] pageC1 docC1) = true := by rfl

theorem run2_eq : processHtml [] pageC1 (processHtml [] pageC1 docC1)
    = (preC1 ++ (buildHead pageC1 (processHtml [] pageC1 docC1)).block) ++ sufC1 := by rfl

/-- C1: the per-page injection pipeline is NOT idempotent.  On a document
without a viewport meta tag the first run injects the viewport line into
the head block; the second run then detects that very line, rebuilds the
block without it, and replaces the marker region, so the second run's
output differs from the first run's output.  This contradicts the claim
(and the source file's own header comment, "idempotent"). -/
theorem thm_C1 :
    processHtml [] pageC1 (processHtml [] pageC1 docC1) ≠ processHtml [] pageC1 docC1 := by
  have hb : (buildHead pageC1 (processHtml [] pageC1 docC1)).block
      ≠ (buildHead pageC1 docC1).block := by
    rw [buildHead_block, buildHead_block, docC1_no_viewport, run1_has_viewport]
    intro h2
    have h3 := List.append_cancel_left (List.append_cancel_right h2)
    have h4 : ([] : Str) = viewportMetaTag := by injection h3
    exact (by decide : viewportMetaTag ≠ ([] : Str)) h4.symm
  intro h
  apply hb
  have h5 : (preC1 ++ (buildHead pageC1 (processHtml [] pageC1 docC1)).block) ++ sufC1
      = (preC1 ++ (buildHead pageC1 docC1).block) ++ sufC1 :=
    run2_eq.symm.trans (h.trans run1_eq)
  exact List.append_cancel_left (List.append_cancel_right h5)

end DigestPaper
